import Mathlib

/-!
Verification of the segment-merge core of the metalscribe repository
(`src/metalscribe/core/merge.py` and `src/metalscribe/core/models.py`).

The data model is embedded shallowly: Python `int` becomes `Int`, Python
`float` results of the overlap division become `ℚ` (the inputs to every
division are integers, so the exact rational value is the mathematical
content of the computation), Python `str` becomes `String`.  The two
imperative loops of `merge_segments` become structurally/well-founded
recursive functions (`innerScan` for the inner diarization scan,
`mergeLoop` for the outer transcript loop), threading the mutable cursor
`diarize_idx` explicitly.
-/

namespace Metalscribe

/-- Transcript segment (`TranscriptSegment` dataclass in `models.py`). -/
structure TranscriptSegment where
  start_ms : Int
  end_ms : Int
  text : String
deriving DecidableEq, Repr

/-- Diarization segment (`DiarizeSegment` dataclass in `models.py`). -/
structure DiarizeSegment where
  start_ms : Int
  end_ms : Int
  speaker : String
deriving DecidableEq, Repr

/-- Merged segment (`MergedSegment` dataclass in `models.py`). -/
structure MergedSegment where
  start_ms : Int
  end_ms : Int
  text : String
  speaker : String
deriving DecidableEq, Repr

/-- Embedding of `calculate_overlap_ratio` from `merge.py`.  The Python
function divides two integers producing a float; we return the exact
rational value. -/
def calculate_overlap_ratio (transcript_start transcript_end diarize_start diarize_end : Int) : ℚ :=
  let overlap_start := max transcript_start diarize_start
  let overlap_end := min transcript_end diarize_end
  if overlap_start ≥ overlap_end then 0
  else
    let overlap_duration := overlap_end - overlap_start
    let transcript_duration := transcript_end - transcript_start
    if transcript_duration = 0 then 0
    else (overlap_duration : ℚ) / (transcript_duration : ℚ)

/-- Embedding of the inner loop `for i in range(diarize_idx, len(diarize_segments))`
of `merge_segments`.  `i` is the inner loop index, `diarize_idx` the outer
cursor (mutated only in the prune branch), `best_speaker`/`best_overlap`
the running best.  Returns the cursor value and best speaker at loop exit. -/
def innerScan (t : TranscriptSegment) (ds : List DiarizeSegment)
    (i diarize_idx : Nat) (best_speaker : String) (best_overlap : ℚ) : Nat × String :=
  if h : i < ds.length then
    let diarize_seg := ds[i]
    if diarize_seg.end_ms < t.start_ms then
      -- `diarize_idx = i + 1; continue`
      innerScan t ds (i + 1) (i + 1) best_speaker best_overlap
    else if diarize_seg.start_ms > t.end_ms then
      -- `break`
      (diarize_idx, best_speaker)
    else
      let overlap := calculate_overlap_ratio t.start_ms t.end_ms
        diarize_seg.start_ms diarize_seg.end_ms
      if overlap > best_overlap then
        innerScan t ds (i + 1) diarize_idx diarize_seg.speaker overlap
      else
        innerScan t ds (i + 1) diarize_idx best_speaker best_overlap
  else (diarize_idx, best_speaker)
termination_by ds.length - i

/-- Embedding of the outer loop `for transcript_seg in transcript_segments`
of `merge_segments`, threading the cursor `diarize_idx`. -/
def mergeLoop (ts : List TranscriptSegment) (ds : List DiarizeSegment)
    (diarize_idx : Nat) : List MergedSegment :=
  match ts with
  | [] => []
  | t :: rest =>
    let r := innerScan t ds diarize_idx diarize_idx "UNKNOWN" 0
    { start_ms := t.start_ms, end_ms := t.end_ms, text := t.text, speaker := r.2 }
      :: mergeLoop rest ds r.1

/-- Embedding of `merge_segments` from `merge.py`. -/
def merge_segments (transcript_segments : List TranscriptSegment)
    (diarize_segments : List DiarizeSegment) : List MergedSegment :=
  if transcript_segments.isEmpty then []
  else if diarize_segments.isEmpty then
    transcript_segments.map fun seg =>
      { start_ms := seg.start_ms, end_ms := seg.end_ms, text := seg.text, speaker := "UNKNOWN" }
  else
    mergeLoop transcript_segments diarize_segments 0

/-!
Reference model for the refinement claim: a naive merge that, for each
transcript segment, scans every diarization segment from index 0 and keeps
the first one attaining the maximal strictly-positive overlap ratio.  This
definition follows the words of the spec, not the source, and exists only to be
compared with `merge_segments`.
-/

/-- Naive left-to-right best-candidate fold: starting from the running best
`(b, o)`, examine each diarization segment in order and replace the best
exactly when its overlap ratio with `t` is strictly greater. -/
def bestFold (t : TranscriptSegment) (l : List DiarizeSegment) (b : String) (o : ℚ) : String × ℚ :=
  match l with
  | [] => (b, o)
  | d :: rest =>
    let ov := calculate_overlap_ratio t.start_ms t.end_ms d.start_ms d.end_ms
    if ov > o then bestFold t rest d.speaker ov else bestFold t rest b o

/-- Reference (spec-words) best speaker: scan all diarization segments from
index 0, first candidate attaining the maximal strictly-positive overlap
wins; `"UNKNOWN"` if every overlap is zero. -/
def naive_best_spec (t : TranscriptSegment) (ds : List DiarizeSegment) : String :=
  (bestFold t ds "UNKNOWN" 0).1

/-- Reference (spec-words) merge: one output segment per transcript segment,
fields copied, speaker chosen by the naive full scan. -/
def naive_merge_spec (ts : List TranscriptSegment) (ds : List DiarizeSegment) :
    List MergedSegment :=
  ts.map fun t =>
    { start_ms := t.start_ms, end_ms := t.end_ms, text := t.text,
      speaker := naive_best_spec t ds }

/-- Variant of `calculate_overlap_ratio` without the
`if transcript_duration == 0` guard, used to express that the guard is dead
code. -/
def calculate_overlap_ratio_noguard (transcript_start transcript_end diarize_start diarize_end : Int) : ℚ :=
  let overlap_start := max transcript_start diarize_start
  let overlap_end := min transcript_end diarize_end
  if overlap_start ≥ overlap_end then 0
  else ((overlap_end - overlap_start : Int) : ℚ) / ((transcript_end - transcript_start : Int) : ℚ)

/-- Python division: raises (returns `none`) exactly when the divisor is
zero. -/
def pyDiv (a b : ℚ) : Option ℚ := if b = 0 then none else some (a / b)

/-- Instrumented `calculate_overlap_ratio`: the division is performed by
`pyDiv`, so a zero divisor would surface as `none`. -/
def calculate_overlap_ratio_checked (transcript_start transcript_end diarize_start diarize_end : Int) : Option ℚ :=
  let overlap_start := max transcript_start diarize_start
  let overlap_end := min transcript_end diarize_end
  if overlap_start ≥ overlap_end then some 0
  else
    let overlap_duration := overlap_end - overlap_start
    let transcript_duration := transcript_end - transcript_start
    if transcript_duration = 0 then some 0
    else pyDiv (overlap_duration : ℚ) (transcript_duration : ℚ)

/-- Instrumented inner scan: the subscript `ds[i]` is performed through the
partial `ds[i]?` (an out-of-range access would surface as `none`), and the
overlap is computed by the instrumented ratio. -/
def innerScan_checked (t : TranscriptSegment) (ds : List DiarizeSegment)
    (i diarize_idx : Nat) (best_speaker : String) (best_overlap : ℚ) :
    Option (Nat × String) :=
  if _h : i < ds.length then
    match ds[i]? with
    | none => none
    | some diarize_seg =>
      if diarize_seg.end_ms < t.start_ms then
        innerScan_checked t ds (i + 1) (i + 1) best_speaker best_overlap
      else if diarize_seg.start_ms > t.end_ms then
        some (diarize_idx, best_speaker)
      else
        match calculate_overlap_ratio_checked t.start_ms t.end_ms
          diarize_seg.start_ms diarize_seg.end_ms with
        | none => none
        | some overlap =>
          if overlap > best_overlap then
            innerScan_checked t ds (i + 1) diarize_idx diarize_seg.speaker overlap
          else
            innerScan_checked t ds (i + 1) diarize_idx best_speaker best_overlap
  else some (diarize_idx, best_speaker)
termination_by ds.length - i

/-- Instrumented outer loop: propagates a failure from any inner scan. -/
def mergeLoop_checked (ts : List TranscriptSegment) (ds : List DiarizeSegment)
    (diarize_idx : Nat) : Option (List MergedSegment) :=
  match ts with
  | [] => some []
  | t :: rest =>
    match innerScan_checked t ds diarize_idx diarize_idx "UNKNOWN" 0 with
    | none => none
    | some r =>
      match mergeLoop_checked rest ds r.1 with
      | none => none
      | some tail =>
        some ({ start_ms := t.start_ms, end_ms := t.end_ms, text := t.text, speaker := r.2 } :: tail)

/-- Instrumented `merge_segments`: any raised exception would surface as
`none`. -/
def merge_segments_checked (transcript_segments : List TranscriptSegment)
    (diarize_segments : List DiarizeSegment) : Option (List MergedSegment) :=
  if transcript_segments.isEmpty then some []
  else if diarize_segments.isEmpty then
    some (transcript_segments.map fun seg =>
      { start_ms := seg.start_ms, end_ms := seg.end_ms, text := seg.text, speaker := "UNKNOWN" })
  else
    mergeLoop_checked transcript_segments diarize_segments 0

/-!
Concrete inputs.  `exTs`/`exDs` witness the unsoundness of the cursor
pruning when diarization segments are nested (sorted by start but not by
end): while scanning the first transcript segment the prune at index 1 sets
the cursor past index 0, whose long segment still overlaps the second
transcript segment.  `wTs`/`wDs` are a small well-behaved sorted instance.
-/

/-- Two transcript segments, sorted by start. -/
def exTs : List TranscriptSegment := [⟨30, 50, "a"⟩, ⟨60, 90, "b"⟩]

/-- Two diarization segments, sorted by start but nested: the second ends
before the first. -/
def exDs : List DiarizeSegment := [⟨0, 100, "S1"⟩, ⟨10, 20, "S2"⟩]

/-- One transcript segment. -/
def wTs : List TranscriptSegment := [⟨0, 10, "x"⟩]

/-- One diarization segment exactly spanning it. -/
def wDs : List DiarizeSegment := [⟨0, 10, "A"⟩]

/-- One zero-duration transcript segment. -/
def zTs : List TranscriptSegment := [⟨7, 7, "z"⟩]

/-! Basic facts about the overlap ratio. -/

/-- Sortedness of transcript segments by `start_ms`. -/
def transcriptSorted (ts : List TranscriptSegment) : Prop :=
  ts.Pairwise fun a b => a.start_ms ≤ b.start_ms

/-- Sortedness of diarization segments by `start_ms`. -/
def diarizeSortedByStart (ds : List DiarizeSegment) : Prop :=
  ds.Pairwise fun a b => a.start_ms ≤ b.start_ms

/-- Monotonicity of diarization segments in `end_ms`. -/
def diarizeSortedByEnd (ds : List DiarizeSegment) : Prop :=
  ds.Pairwise fun a b => a.end_ms ≤ b.end_ms

lemma ratio_nonneg (a b c d : Int) : 0 ≤ calculate_overlap_ratio a b c d := by
  simp only [calculate_overlap_ratio]
  split
  · exact le_refl 0
  · next hlt =>
    push_neg at hlt
    split
    · exact le_refl 0
    · apply div_nonneg
      · exact_mod_cast (by linarith : (0 : Int) ≤ b ⊓ d - a ⊔ c)
      · have h1 : a ≤ a ⊔ c := le_max_left a c
        have h2 : b ⊓ d ≤ b := min_le_left b d
        exact_mod_cast (by linarith : (0 : Int) ≤ b - a)

lemma ratio_le_one (a b c d : Int) : calculate_overlap_ratio a b c d ≤ 1 := by
  simp only [calculate_overlap_ratio]
  split
  · exact zero_le_one
  · next hlt =>
    push_neg at hlt
    split
    · exact zero_le_one
    · next hne =>
      have h1 : a ≤ a ⊔ c := le_max_left a c
      have h2 : b ⊓ d ≤ b := min_le_left b d
      have hba : (0 : Int) < b - a := by linarith
      rw [div_le_one (by exact_mod_cast hba)]
      exact_mod_cast (by linarith : b ⊓ d - a ⊔ c ≤ b - a)

lemma ratio_eq_zero_of_end_lt (a b c d : Int) (h : d < a) :
    calculate_overlap_ratio a b c d = 0 := by
  simp only [calculate_overlap_ratio]
  have : min b d ≤ max a c := by
    have h1 : min b d ≤ d := min_le_right b d
    have h2 : a ≤ max a c := le_max_left a c
    omega
  simp [this]

lemma ratio_eq_zero_of_start_gt (a b c d : Int) (h : c > b) :
    calculate_overlap_ratio a b c d = 0 := by
  simp only [calculate_overlap_ratio]
  have : min b d ≤ max a c := by
    have h1 : min b d ≤ b := min_le_left b d
    have h2 : c ≤ max a c := le_max_right a c
    omega
  simp [this]

lemma ratio_eq_zero_of_degenerate (a c d : Int) :
    calculate_overlap_ratio a a c d = 0 := by
  simp only [calculate_overlap_ratio]
  have : min a d ≤ max a c := by
    have h1 : min a d ≤ a := min_le_left a d
    have h2 : a ≤ max a c := le_max_left a c
    omega
  simp [this]

/-! Step lemmas for the inner scan, one per branch of the loop body. -/

lemma innerScan_stop (t : TranscriptSegment) (ds : List DiarizeSegment)
    (i c : Nat) (b : String) (o : ℚ) (h : ¬ i < ds.length) :
    innerScan t ds i c b o = (c, b) := by
  rw [innerScan]; simp [h]

lemma innerScan_prune (t : TranscriptSegment) (ds : List DiarizeSegment)
    (i c : Nat) (b : String) (o : ℚ) (h : i < ds.length)
    (h2 : ds[i].end_ms < t.start_ms) :
    innerScan t ds i c b o = innerScan t ds (i + 1) (i + 1) b o := by
  rw [innerScan]; simp [h, h2]

lemma innerScan_break (t : TranscriptSegment) (ds : List DiarizeSegment)
    (i c : Nat) (b : String) (o : ℚ) (h : i < ds.length)
    (h2 : ¬ ds[i].end_ms < t.start_ms) (h3 : ds[i].start_ms > t.end_ms) :
    innerScan t ds i c b o = (c, b) := by
  rw [innerScan]; simp [h, h2, h3]

lemma innerScan_update (t : TranscriptSegment) (ds : List DiarizeSegment)
    (i c : Nat) (b : String) (o : ℚ) (h : i < ds.length)
    (h2 : ¬ ds[i].end_ms < t.start_ms) (h3 : ¬ ds[i].start_ms > t.end_ms)
    (h4 : calculate_overlap_ratio t.start_ms t.end_ms ds[i].start_ms ds[i].end_ms > o) :
    innerScan t ds i c b o =
      innerScan t ds (i + 1) c ds[i].speaker
        (calculate_overlap_ratio t.start_ms t.end_ms ds[i].start_ms ds[i].end_ms) := by
  rw [innerScan]; simp [h, h2, h3, h4]

lemma innerScan_keep (t : TranscriptSegment) (ds : List DiarizeSegment)
    (i c : Nat) (b : String) (o : ℚ) (h : i < ds.length)
    (h2 : ¬ ds[i].end_ms < t.start_ms) (h3 : ¬ ds[i].start_ms > t.end_ms)
    (h4 : ¬ calculate_overlap_ratio t.start_ms t.end_ms ds[i].start_ms ds[i].end_ms > o) :
    innerScan t ds i c b o = innerScan t ds (i + 1) c b o := by
  rw [innerScan]; simp [h, h2, h3, h4]

/-! Facts about the naive fold. -/

lemma bestFold_const (t : TranscriptSegment) :
    ∀ (l : List DiarizeSegment) (b : String) (o : ℚ),
      (∀ d ∈ l, ¬ calculate_overlap_ratio t.start_ms t.end_ms d.start_ms d.end_ms > o) →
      bestFold t l b o = (b, o) := by
  intro l
  induction l with
  | nil => intro b o _; rfl
  | cons d rest ih =>
    intro b o h
    have hd := h d (List.mem_cons_self d rest)
    simp only [bestFold, if_neg hd]
    exact ih b o fun x hx => h x (List.mem_cons_of_mem d hx)

lemma bestFold_append_zero (t : TranscriptSegment) :
    ∀ (p s : List DiarizeSegment) (b : String) (o : ℚ), 0 ≤ o →
      (∀ d ∈ p, calculate_overlap_ratio t.start_ms t.end_ms d.start_ms d.end_ms = 0) →
      bestFold t (p ++ s) b o = bestFold t s b o := by
  intro p
  induction p with
  | nil => intro s b o _ _; rfl
  | cons d p ih =>
    intro s b o ho h
    have hd : calculate_overlap_ratio t.start_ms t.end_ms d.start_ms d.end_ms = 0 :=
      h d (List.mem_cons_self d p)
    have : ¬ calculate_overlap_ratio t.start_ms t.end_ms d.start_ms d.end_ms > o := by
      rw [hd]; exact not_lt.mpr ho
    simp only [List.cons_append, bestFold, if_neg this]
    exact ih s b o ho fun x hx => h x (List.mem_cons_of_mem d hx)

/-! The inner scan computes the same best speaker as the naive fold over the
remaining diarization segments, provided the diarization list is sorted by
`start_ms` (which makes the `break` sound for the current segment). -/

lemma innerScan_snd_eq_bestFold_aux (t : TranscriptSegment) (ds : List DiarizeSegment)
    (hsort : diarizeSortedByStart ds) :
    ∀ (k i c : Nat) (b : String) (o : ℚ), ds.length - i ≤ k → 0 ≤ o →
      (innerScan t ds i c b o).2 = (bestFold t (ds.drop i) b o).1 := by
  intro k
  induction k with
  | zero =>
    intro i c b o hk _
    have hi : ¬ i < ds.length := by omega
    rw [innerScan_stop t ds i c b o hi, List.drop_of_length_le (by omega)]
    rfl
  | succ k ih =>
    intro i c b o hk ho
    by_cases hi : i < ds.length
    · have hdrop : ds.drop i = ds[i] :: ds.drop (i + 1) := List.drop_eq_getElem_cons hi
      have hk1 : ds.length - (i + 1) ≤ k := by omega
      by_cases h2 : ds[i].end_ms < t.start_ms
      · -- prune branch: the pruned segment has zero overlap with `t`
        rw [innerScan_prune t ds i c b o hi h2, hdrop]
        have hz : calculate_overlap_ratio t.start_ms t.end_ms ds[i].start_ms ds[i].end_ms = 0 :=
          ratio_eq_zero_of_end_lt _ _ _ _ h2
        simp only [bestFold, hz, if_neg (not_lt.mpr ho)]
        exact ih (i + 1) (i + 1) b o hk1 ho
      · by_cases h3 : ds[i].start_ms > t.end_ms
        · -- break branch: every remaining segment starts after `t` ends
          rw [innerScan_break t ds i c b o hi h2 h3, hdrop]
          have hall : ∀ d ∈ ds[i] :: ds.drop (i + 1),
              ¬ calculate_overlap_ratio t.start_ms t.end_ms d.start_ms d.end_ms > o := by
            intro d hd
            have hz : calculate_overlap_ratio t.start_ms t.end_ms d.start_ms d.end_ms = 0 := by
              rcases List.mem_cons.mp hd with h | h
              · subst h; exact ratio_eq_zero_of_start_gt _ _ _ _ h3
              · have hpair : (ds.drop i).Pairwise fun a b => a.start_ms ≤ b.start_ms :=
                  hsort.sublist (List.drop_sublist i ds)
                rw [hdrop] at hpair
                have hle : ds[i].start_ms ≤ d.start_ms :=
                  (List.pairwise_cons.mp hpair).1 d h
                exact ratio_eq_zero_of_start_gt _ _ _ _ (lt_of_lt_of_le h3 hle)
            rw [hz]; exact not_lt.mpr ho
          rw [bestFold_const t _ b o hall]
        · by_cases h4 : calculate_overlap_ratio t.start_ms t.end_ms ds[i].start_ms ds[i].end_ms > o
          · rw [innerScan_update t ds i c b o hi h2 h3 h4, hdrop]
            simp only [bestFold, if_pos h4]
            exact ih (i + 1) c _ _ hk1 (ratio_nonneg _ _ _ _)
          · rw [innerScan_keep t ds i c b o hi h2 h3 h4, hdrop]
            simp only [bestFold, if_neg h4]
            exact ih (i + 1) c b o hk1 ho
    · rw [innerScan_stop t ds i c b o hi, List.drop_of_length_le (by omega)]
      rfl

lemma innerScan_snd_eq_bestFold (t : TranscriptSegment) (ds : List DiarizeSegment)
    (hsort : diarizeSortedByStart ds) (i c : Nat) (b : String) (o : ℚ) (ho : 0 ≤ o) :
    (innerScan t ds i c b o).2 = (bestFold t (ds.drop i) b o).1 :=
  innerScan_snd_eq_bestFold_aux t ds hsort ds.length i c b o (by omega) ho

/-! Characterization of the cursor value returned by the inner scan: it is
either unchanged, or `j + 1` for a scanned index `j` whose diarization
segment ends before the current transcript segment starts. -/

lemma innerScan_fst_spec_aux (t : TranscriptSegment) (ds : List DiarizeSegment) :
    ∀ (k i c : Nat) (b : String) (o : ℚ), ds.length - i ≤ k → c ≤ i →
      (innerScan t ds i c b o).1 = c ∨
        ∃ j, ∃ hj : j < ds.length, c ≤ j ∧ (innerScan t ds i c b o).1 = j + 1 ∧
          ds[j].end_ms < t.start_ms := by
  intro k
  induction k with
  | zero =>
    intro i c b o hk hc
    have hi : ¬ i < ds.length := by omega
    rw [innerScan_stop t ds i c b o hi]
    exact Or.inl rfl
  | succ k ih =>
    intro i c b o hk hc
    by_cases hi : i < ds.length
    · have hk1 : ds.length - (i + 1) ≤ k := by omega
      by_cases h2 : ds[i].end_ms < t.start_ms
      · rw [innerScan_prune t ds i c b o hi h2]
        rcases ih (i + 1) (i + 1) b o hk1 (le_refl _) with h | h
        · exact Or.inr ⟨i, hi, hc, h, h2⟩
        · obtain ⟨j, hj, hcj, heq, hend⟩ := h
          exact Or.inr ⟨j, hj, by omega, heq, hend⟩
      · by_cases h3 : ds[i].start_ms > t.end_ms
        · rw [innerScan_break t ds i c b o hi h2 h3]; exact Or.inl rfl
        · by_cases h4 : calculate_overlap_ratio t.start_ms t.end_ms ds[i].start_ms ds[i].end_ms > o
          · rw [innerScan_update t ds i c b o hi h2 h3 h4]
            exact ih (i + 1) c _ _ hk1 (by omega)
          · rw [innerScan_keep t ds i c b o hi h2 h3 h4]
            exact ih (i + 1) c b o hk1 (by omega)
    · rw [innerScan_stop t ds i c b o hi]; exact Or.inl rfl

lemma innerScan_fst_spec (t : TranscriptSegment) (ds : List DiarizeSegment)
    (i c : Nat) (b : String) (o : ℚ) (hc : c ≤ i) :
    (innerScan t ds i c b o).1 = c ∨
      ∃ j, ∃ hj : j < ds.length, c ≤ j ∧ (innerScan t ds i c b o).1 = j + 1 ∧
        ds[j].end_ms < t.start_ms :=
  innerScan_fst_spec_aux t ds ds.length i c b o (by omega) hc

lemma innerScan_fst_mono (t : TranscriptSegment) (ds : List DiarizeSegment)
    (i c : Nat) (b : String) (o : ℚ) (hc : c ≤ i) :
    c ≤ (innerScan t ds i c b o).1 := by
  rcases innerScan_fst_spec t ds i c b o hc with h | ⟨j, hj, hcj, heq, _⟩
  · omega
  · omega

/-! The inner scan never changes the running best speaker when no scanned
segment can beat the running best overlap. -/

lemma innerScan_snd_const_aux (t : TranscriptSegment) (ds : List DiarizeSegment) :
    ∀ (k i c : Nat) (b : String) (o : ℚ), ds.length - i ≤ k →
      (∀ d ∈ ds, ¬ calculate_overlap_ratio t.start_ms t.end_ms d.start_ms d.end_ms > o) →
      (innerScan t ds i c b o).2 = b := by
  intro k
  induction k with
  | zero =>
    intro i c b o hk _
    have hi : ¬ i < ds.length := by omega
    rw [innerScan_stop t ds i c b o hi]
  | succ k ih =>
    intro i c b o hk h
    by_cases hi : i < ds.length
    · have hk1 : ds.length - (i + 1) ≤ k := by omega
      by_cases h2 : ds[i].end_ms < t.start_ms
      · rw [innerScan_prune t ds i c b o hi h2]; exact ih (i + 1) (i + 1) b o hk1 h
      · by_cases h3 : ds[i].start_ms > t.end_ms
        · rw [innerScan_break t ds i c b o hi h2 h3]
        · have h4 : ¬ calculate_overlap_ratio t.start_ms t.end_ms ds[i].start_ms ds[i].end_ms > o :=
            h ds[i] (List.getElem_mem hi)
          rw [innerScan_keep t ds i c b o hi h2 h3 h4]
          exact ih (i + 1) c b o hk1 h
    · rw [innerScan_stop t ds i c b o hi]

/-! The best speaker returned by the inner scan is the initial one or the
speaker of some scanned diarization segment. -/

lemma innerScan_snd_mem_aux (t : TranscriptSegment) (ds : List DiarizeSegment) :
    ∀ (k i c : Nat) (b : String) (o : ℚ), ds.length - i ≤ k →
      (innerScan t ds i c b o).2 = b ∨ ∃ d ∈ ds, (innerScan t ds i c b o).2 = d.speaker := by
  intro k
  induction k with
  | zero =>
    intro i c b o hk
    have hi : ¬ i < ds.length := by omega
    rw [innerScan_stop t ds i c b o hi]; exact Or.inl rfl
  | succ k ih =>
    intro i c b o hk
    by_cases hi : i < ds.length
    · have hk1 : ds.length - (i + 1) ≤ k := by omega
      by_cases h2 : ds[i].end_ms < t.start_ms
      · rw [innerScan_prune t ds i c b o hi h2]; exact ih (i + 1) (i + 1) b o hk1
      · by_cases h3 : ds[i].start_ms > t.end_ms
        · rw [innerScan_break t ds i c b o hi h2 h3]; exact Or.inl rfl
        · by_cases h4 : calculate_overlap_ratio t.start_ms t.end_ms ds[i].start_ms ds[i].end_ms > o
          · rw [innerScan_update t ds i c b o hi h2 h3 h4]
            rcases ih (i + 1) c _ _ hk1 with h | h
            · exact Or.inr ⟨ds[i], List.getElem_mem hi, h⟩
            · exact Or.inr h
          · rw [innerScan_keep t ds i c b o hi h2 h3 h4]
            exact ih (i + 1) c b o hk1
    · rw [innerScan_stop t ds i c b o hi]; exact Or.inl rfl

/-! Shape of the output of the outer loop. -/

lemma mergeLoop_length (ds : List DiarizeSegment) :
    ∀ (ts : List TranscriptSegment) (c : Nat), (mergeLoop ts ds c).length = ts.length := by
  intro ts
  induction ts with
  | nil => intro c; rfl
  | cons t rest ih => intro c; simp only [mergeLoop, List.length_cons, ih]

lemma mergeLoop_getElem? (ds : List DiarizeSegment) :
    ∀ (ts : List TranscriptSegment) (i c : Nat),
      ∃ cc, (mergeLoop ts ds c)[i]? = (ts[i]?).map fun t =>
        { start_ms := t.start_ms, end_ms := t.end_ms, text := t.text,
          speaker := (innerScan t ds cc cc "UNKNOWN" 0).2 : MergedSegment } := by
  intro ts
  induction ts with
  | nil => intro i c; exact ⟨0, by simp [mergeLoop]⟩
  | cons t rest ih =>
    intro i c
    cases i with
    | zero => exact ⟨c, by simp [mergeLoop]⟩
    | succ i =>
      obtain ⟨cc, hcc⟩ := ih i (innerScan t ds c c "UNKNOWN" 0).1
      exact ⟨cc, by simpa [mergeLoop] using hcc⟩

/-! Equivalence with the naive merge when the diarization list is sorted by
`start_ms` and additionally non-decreasing in `end_ms`. -/

lemma mergeLoop_eq_naive (ds : List DiarizeSegment)
    (hds : diarizeSortedByStart ds) (hde : diarizeSortedByEnd ds) :
    ∀ (ts : List TranscriptSegment) (c : Nat), transcriptSorted ts →
      (∀ t ∈ ts, ∀ j, (hj : j < ds.length) → j < c → ds[j].end_ms < t.start_ms) →
      mergeLoop ts ds c = naive_merge_spec ts ds := by
  intro ts
  induction ts with
  | nil => intro c _ _; rfl
  | cons t rest ih =>
    intro c hsort hinv
    have hspk : (innerScan t ds c c "UNKNOWN" 0).2 = naive_best_spec t ds := by
      rw [innerScan_snd_eq_bestFold t ds hds c c "UNKNOWN" 0 (le_refl 0)]
      have hsplit : ds.take c ++ ds.drop c = ds := List.take_append_drop c ds
      have hzero : ∀ d ∈ ds.take c,
          calculate_overlap_ratio t.start_ms t.end_ms d.start_ms d.end_ms = 0 := by
        intro d hd
        obtain ⟨j, hj, hdj⟩ := List.mem_iff_getElem.mp hd
        have hjc : j < c := by
          have := hj
          simp only [List.length_take] at this
          omega
        have hjlen : j < ds.length := by
          have := hj
          simp only [List.length_take] at this
          omega
        have : (ds.take c)[j] = ds[j] := List.getElem_take _
        rw [this] at hdj
        subst hdj
        exact ratio_eq_zero_of_end_lt _ _ _ _
          (hinv t (List.mem_cons_self t rest) j hjlen hjc)
      have hbf : bestFold t ds "UNKNOWN" 0 = bestFold t (ds.drop c) "UNKNOWN" 0 := by
        conv_lhs => rw [← hsplit]
        exact bestFold_append_zero t _ _ _ _ (le_refl 0) hzero
      rw [naive_best_spec, hbf]
    have hrest : mergeLoop rest ds (innerScan t ds c c "UNKNOWN" 0).1 =
        naive_merge_spec rest ds := by
      apply ih _ (List.pairwise_cons.mp hsort).2
      intro s hs j hj hjc
      rcases innerScan_fst_spec t ds c c "UNKNOWN" 0 (le_refl c) with hcase | hcase
      · exact hinv s (List.mem_cons_of_mem t hs) j hj (by omega)
      · obtain ⟨j0, hj0, hcj0, heq, hend⟩ := hcase
        have hjj0 : j ≤ j0 := by omega
        have hjend : ds[j].end_ms ≤ ds[j0].end_ms := by
          rcases lt_or_eq_of_le hjj0 with h | h
          · exact (List.pairwise_iff_getElem.mp hde) j j0 hj hj0 h
          · subst h; exact le_refl _
        have hts : t.start_ms ≤ s.start_ms := (List.pairwise_cons.mp hsort).1 s hs
        omega
    simp only [mergeLoop, naive_merge_spec, List.map_cons, hspk]
    rw [hrest]
    rfl

/-- The cursor-based merge agrees with the naive full-scan merge whenever
the transcript list is sorted by `start_ms` and the diarization list is
sorted by `start_ms` and non-decreasing in `end_ms`. -/
lemma merge_eq_naive_sorted (ts : List TranscriptSegment) (ds : List DiarizeSegment)
    (ht : transcriptSorted ts) (hds : diarizeSortedByStart ds)
    (hde : diarizeSortedByEnd ds) :
    merge_segments ts ds = naive_merge_spec ts ds := by
  by_cases hts : ts.isEmpty = true
  · rw [List.isEmpty_iff] at hts
    subst hts
    rfl
  · by_cases hdse : ds.isEmpty = true
    · rw [List.isEmpty_iff] at hdse
      subst hdse
      simp only [merge_segments, hts, if_false, List.isEmpty_nil, if_true, Bool.false_eq_true]
      rfl
    · simp only [merge_segments, hts, hdse, Bool.false_eq_true, if_false]
      exact mergeLoop_eq_naive ds hds hde ts 0 ht (by intro t _ j _ hj; omega)

/-! Argmax characterization of the naive fold: its result is either the
initial best (when nothing beats it) or the first element attaining the
maximal overlap ratio. -/

lemma bestFold_spec (t : TranscriptSegment) :
    ∀ (l : List DiarizeSegment) (b : String) (o : ℚ), 0 ≤ o →
      (bestFold t l b o = (b, o) ∧
        ∀ d ∈ l, calculate_overlap_ratio t.start_ms t.end_ms d.start_ms d.end_ms ≤ o) ∨
      (∃ p d s, l = p ++ d :: s ∧
        (bestFold t l b o).1 = d.speaker ∧
        (bestFold t l b o).2 = calculate_overlap_ratio t.start_ms t.end_ms d.start_ms d.end_ms ∧
        o < calculate_overlap_ratio t.start_ms t.end_ms d.start_ms d.end_ms ∧
        (∀ x ∈ p, calculate_overlap_ratio t.start_ms t.end_ms x.start_ms x.end_ms <
          calculate_overlap_ratio t.start_ms t.end_ms d.start_ms d.end_ms) ∧
        (∀ x ∈ s, calculate_overlap_ratio t.start_ms t.end_ms x.start_ms x.end_ms ≤
          calculate_overlap_ratio t.start_ms t.end_ms d.start_ms d.end_ms)) := by
  intro l
  induction l with
  | nil =>
    intro b o _
    exact Or.inl ⟨rfl, by simp⟩
  | cons d rest ih =>
    intro b o ho
    by_cases hcmp : calculate_overlap_ratio t.start_ms t.end_ms d.start_ms d.end_ms > o
    · have heq : bestFold t (d :: rest) b o =
          bestFold t rest d.speaker
            (calculate_overlap_ratio t.start_ms t.end_ms d.start_ms d.end_ms) := by
        simp only [bestFold, if_pos hcmp]
      have hov : (0 : ℚ) ≤ calculate_overlap_ratio t.start_ms t.end_ms d.start_ms d.end_ms :=
        ratio_nonneg _ _ _ _
      rcases ih d.speaker _ hov with ⟨hbf, hall⟩ | ⟨p, d1, s, hsplit, h1, h2, h3, h4, h5⟩
      · refine Or.inr ⟨[], d, rest, by simp, ?_, ?_, hcmp, by simp, hall⟩
        · rw [heq, hbf]
        · rw [heq, hbf]
      · refine Or.inr ⟨d :: p, d1, s, by simp [hsplit], ?_, ?_, lt_trans hcmp h3, ?_, h5⟩
        · rw [heq, h1]
        · rw [heq, h2]
        · intro x hx
          rcases List.mem_cons.mp hx with h | h
          · subst h; exact h3
          · exact h4 x h
    · have heq : bestFold t (d :: rest) b o = bestFold t rest b o := by
        simp only [bestFold, if_neg hcmp]
      rcases ih b o ho with ⟨hbf, hall⟩ | ⟨p, d1, s, hsplit, h1, h2, h3, h4, h5⟩
      · refine Or.inl ⟨by rw [heq, hbf], ?_⟩
        intro x hx
        rcases List.mem_cons.mp hx with h | h
        · subst h; exact not_lt.mp hcmp
        · exact hall x h
      · refine Or.inr ⟨d :: p, d1, s, by simp [hsplit], ?_, ?_, h3, ?_, h5⟩
        · rw [heq, h1]
        · rw [heq, h2]
        · intro x hx
          rcases List.mem_cons.mp hx with h | h
          · subst h; exact lt_of_le_of_lt (not_lt.mp hcmp) h3
          · exact h4 x h

/-- Index-level characterization of the naive best speaker: if all overlaps
are zero the result is `"UNKNOWN"`; and if index `j` carries a strictly
positive overlap that is maximal, with every earlier index strictly below
it, the result is the speaker at `j`. -/
lemma naive_best_spec_char (t : TranscriptSegment) (ds : List DiarizeSegment) :
    ((∀ d ∈ ds, calculate_overlap_ratio t.start_ms t.end_ms d.start_ms d.end_ms = 0) →
      naive_best_spec t ds = "UNKNOWN") ∧
    (∀ j, (hj : j < ds.length) →
      0 < calculate_overlap_ratio t.start_ms t.end_ms ds[j].start_ms ds[j].end_ms →
      (∀ k, (hk : k < ds.length) →
        calculate_overlap_ratio t.start_ms t.end_ms ds[k].start_ms ds[k].end_ms ≤
          calculate_overlap_ratio t.start_ms t.end_ms ds[j].start_ms ds[j].end_ms) →
      (∀ k, (hk : k < ds.length) → k < j →
        calculate_overlap_ratio t.start_ms t.end_ms ds[k].start_ms ds[k].end_ms <
          calculate_overlap_ratio t.start_ms t.end_ms ds[j].start_ms ds[j].end_ms) →
      naive_best_spec t ds = ds[j].speaker) := by
  rcases bestFold_spec t ds "UNKNOWN" 0 (le_refl 0) with
    ⟨hbf, hall⟩ | ⟨p, d, s, hsplit, h1, h2, h3, h4, h5⟩
  · constructor
    · intro _
      rw [naive_best_spec, hbf]
    · intro j hj hpos hmax hfirst
      exact absurd (lt_of_lt_of_le hpos (hall ds[j] (List.getElem_mem hj))) (lt_irrefl 0)
  · subst hsplit
    constructor
    · intro hz
      have hd : d ∈ p ++ d :: s := List.mem_append_right p (List.mem_cons_self d s)
      exact absurd (hz d hd ▸ h3) (lt_irrefl 0)
    · intro j hj hpos hmax hfirst
      have hlen : (p ++ d :: s).length = p.length + s.length + 1 := by simp; omega
      have hdlen : p.length < (p ++ d :: s).length := by omega
      have hdget : (p ++ d :: s)[p.length] = d := by
        rw [List.getElem_append_right (le_refl p.length)]
        simp
      -- every index has ratio at most the ratio of `d`
      have hub : ∀ k, (hk : k < (p ++ d :: s).length) →
          calculate_overlap_ratio t.start_ms t.end_ms
              ((p ++ d :: s)[k]).start_ms ((p ++ d :: s)[k]).end_ms ≤
            calculate_overlap_ratio t.start_ms t.end_ms d.start_ms d.end_ms := by
        intro k hk
        rcases lt_trichotomy k p.length with hkp | hkp | hkp
        · have hmem : (p ++ d :: s)[k] ∈ p := by
            have heq : (p ++ d :: s)[k] = p[k] := List.getElem_append_left _
            rw [heq]
            exact List.getElem_mem hkp
          exact le_of_lt (h4 _ hmem)
        · subst hkp
          rw [hdget]
        · have hks : k - p.length - 1 < s.length := by omega
          have hmem : (p ++ d :: s)[k] ∈ s := by
            have heq : (p ++ d :: s)[k] = s[k - p.length - 1] := by
              rw [List.getElem_append_right (by omega)]
              rw [List.getElem_cons]
              simp only [dif_neg (by omega : ¬ k - p.length = 0)]
            rw [heq]
            exact List.getElem_mem hks
          exact h5 _ hmem
      have hjp : j = p.length := by
        by_contra hne
        rcases lt_or_gt_of_ne hne with hlt | hgt
        · -- j before d: its ratio is strictly below the ratio of d, yet maximal
          have hmem : (p ++ d :: s)[j] ∈ p := by
            have heq : (p ++ d :: s)[j] = p[j] := List.getElem_append_left _
            rw [heq]
            exact List.getElem_mem hlt
          have hstrict := h4 _ hmem
          have hle := hmax p.length hdlen
          rw [hdget] at hle
          exact absurd (lt_of_le_of_lt hle hstrict) (lt_irrefl _)
        · -- d before j: the first-wins hypothesis makes the ratio at d strictly
          -- below the ratio at j, contradicting maximality of d
          have hlt2 := hfirst p.length hdlen hgt
          rw [hdget] at hlt2
          exact absurd (lt_of_le_of_lt (hub j hj) hlt2) (lt_irrefl _)
      subst hjp
      rw [naive_best_spec, h1, hdget]

/-!
Exception-instrumented variants.  Python raises `ZeroDivisionError` on
division by zero and `IndexError` on an out-of-range list subscript; we
model both failure sources with `Option`, `none` standing for a raised
exception, and prove the instrumented merge never returns `none`.
-/

lemma calculate_overlap_ratio_checked_eq (a b c d : Int) :
    calculate_overlap_ratio_checked a b c d = some (calculate_overlap_ratio a b c d) := by
  simp only [calculate_overlap_ratio_checked, calculate_overlap_ratio, pyDiv]
  split
  · rfl
  · split
    · rfl
    · next h => rw [if_neg (by exact_mod_cast h)]

lemma innerScan_checked_eq_aux (t : TranscriptSegment) (ds : List DiarizeSegment) :
    ∀ (k i c : Nat) (b : String) (o : ℚ), ds.length - i ≤ k →
      innerScan_checked t ds i c b o = some (innerScan t ds i c b o) := by
  intro k
  induction k with
  | zero =>
    intro i c b o hk
    have hi : ¬ i < ds.length := by omega
    rw [innerScan_stop t ds i c b o hi, innerScan_checked]
    simp [hi]
  | succ k ih =>
    intro i c b o hk
    by_cases hi : i < ds.length
    · have hk1 : ds.length - (i + 1) ≤ k := by omega
      have hget : ds[i]? = some ds[i] := List.getElem?_eq_getElem hi
      rw [innerScan_checked]
      simp only [dif_pos hi, hget, calculate_overlap_ratio_checked_eq]
      by_cases h2 : ds[i].end_ms < t.start_ms
      · rw [if_pos h2, innerScan_prune t ds i c b o hi h2]
        exact ih (i + 1) (i + 1) b o hk1
      · rw [if_neg h2]
        by_cases h3 : ds[i].start_ms > t.end_ms
        · rw [if_pos h3, innerScan_break t ds i c b o hi h2 h3]
        · rw [if_neg h3]
          by_cases h4 : calculate_overlap_ratio t.start_ms t.end_ms ds[i].start_ms ds[i].end_ms > o
          · rw [if_pos h4, innerScan_update t ds i c b o hi h2 h3 h4]
            exact ih (i + 1) c _ _ hk1
          · rw [if_neg h4, innerScan_keep t ds i c b o hi h2 h3 h4]
            exact ih (i + 1) c b o hk1
    · rw [innerScan_stop t ds i c b o hi, innerScan_checked]
      simp [hi]

lemma innerScan_checked_eq (t : TranscriptSegment) (ds : List DiarizeSegment)
    (i c : Nat) (b : String) (o : ℚ) :
    innerScan_checked t ds i c b o = some (innerScan t ds i c b o) :=
  innerScan_checked_eq_aux t ds ds.length i c b o (by omega)

lemma mergeLoop_checked_eq (ds : List DiarizeSegment) :
    ∀ (ts : List TranscriptSegment) (c : Nat),
      mergeLoop_checked ts ds c = some (mergeLoop ts ds c) := by
  intro ts
  induction ts with
  | nil => intro c; rfl
  | cons t rest ih =>
    intro c
    rw [mergeLoop_checked, innerScan_checked_eq]
    dsimp only
    rw [ih]
    rfl

/-! The scan never changes a `"UNKNOWN"` best for a zero-duration transcript
segment, since every overlap ratio it computes is zero. -/

lemma innerScan_degenerate (t : TranscriptSegment) (ht : t.start_ms = t.end_ms)
    (ds : List DiarizeSegment) (i c : Nat) :
    (innerScan t ds i c "UNKNOWN" 0).2 = "UNKNOWN" := by
  apply innerScan_snd_const_aux t ds ds.length i c _ _ (by omega)
  intro d _
  have hz : calculate_overlap_ratio t.start_ms t.end_ms d.start_ms d.end_ms = 0 := by
    rw [← ht]
    exact ratio_eq_zero_of_degenerate _ _ _
  rw [hz]
  exact lt_irrefl 0

lemma ratio_30_50_0_100 : calculate_overlap_ratio 30 50 0 100 = 1 := by
  norm_num [calculate_overlap_ratio]

lemma ratio_30_50_10_20 : calculate_overlap_ratio 30 50 10 20 = 0 := by
  norm_num [calculate_overlap_ratio]

lemma ratio_60_90_0_100 : calculate_overlap_ratio 60 90 0 100 = 1 := by
  norm_num [calculate_overlap_ratio]

lemma ratio_60_90_10_20 : calculate_overlap_ratio 60 90 10 20 = 0 := by
  norm_num [calculate_overlap_ratio]

lemma ratio_0_10_0_10 : calculate_overlap_ratio 0 10 0 10 = 1 := by
  norm_num [calculate_overlap_ratio]

lemma eval_innerScan_ex_first :
    innerScan ⟨30, 50, "a"⟩ exDs 0 0 "UNKNOWN" 0 = (2, "S1") := by
  have s1 := innerScan_update ⟨30, 50, "a"⟩ exDs 0 0 "UNKNOWN" 0 (by decide) (by decide)
    (by decide) (show calculate_overlap_ratio 30 50 0 100 > 0 by rw [ratio_30_50_0_100]; norm_num)
  rw [s1]
  have s2 := innerScan_prune ⟨30, 50, "a"⟩ exDs 1 0 "S1" 1 (by decide) (by decide)
  show innerScan ⟨30, 50, "a"⟩ exDs 1 0 "S1" (calculate_overlap_ratio 30 50 0 100) = (2, "S1")
  rw [ratio_30_50_0_100, s2]
  exact innerScan_stop _ _ _ _ _ _ (by decide)

lemma eval_innerScan_ex_second :
    innerScan ⟨60, 90, "b"⟩ exDs 2 2 "UNKNOWN" 0 = (2, "UNKNOWN") :=
  innerScan_stop _ _ _ _ _ _ (by decide)

/-- The cursor-based merge on the nested input: the second transcript
segment comes out `"UNKNOWN"` because the cursor was pushed past the long
first diarization segment. -/
lemma eval_merge_ex : merge_segments exTs exDs =
    [⟨30, 50, "a", "S1"⟩, ⟨60, 90, "b", "UNKNOWN"⟩] := by
  show mergeLoop exTs exDs 0 = _
  show (⟨30, 50, "a", (innerScan ⟨30, 50, "a"⟩ exDs 0 0 "UNKNOWN" 0).2⟩ : MergedSegment)
    :: mergeLoop [⟨60, 90, "b"⟩] exDs (innerScan ⟨30, 50, "a"⟩ exDs 0 0 "UNKNOWN" 0).1 = _
  rw [eval_innerScan_ex_first]
  show _ :: (⟨60, 90, "b", (innerScan ⟨60, 90, "b"⟩ exDs 2 2 "UNKNOWN" 0).2⟩ : MergedSegment)
    :: mergeLoop [] exDs (innerScan ⟨60, 90, "b"⟩ exDs 2 2 "UNKNOWN" 0).1 = _
  rw [eval_innerScan_ex_second]
  rfl

/-- The naive full-scan merge on the same input assigns `"S1"` to both
transcript segments. -/
lemma eval_naive_ex : naive_merge_spec exTs exDs =
    [⟨30, 50, "a", "S1"⟩, ⟨60, 90, "b", "S1"⟩] := by
  have h1 : naive_best_spec ⟨30, 50, "a"⟩ exDs = "S1" := by
    simp only [naive_best_spec, exDs, bestFold, ratio_30_50_0_100, ratio_30_50_10_20]
    norm_num
  have h2 : naive_best_spec ⟨60, 90, "b"⟩ exDs = "S1" := by
    simp only [naive_best_spec, exDs, bestFold, ratio_60_90_0_100, ratio_60_90_10_20]
    norm_num
  simp only [naive_merge_spec, exTs, List.map_cons, List.map_nil, h1, h2]

lemma eval_innerScan_w :
    innerScan ⟨0, 10, "x"⟩ wDs 0 0 "UNKNOWN" 0 = (0, "A") := by
  have s1 := innerScan_update ⟨0, 10, "x"⟩ wDs 0 0 "UNKNOWN" 0 (by decide) (by decide)
    (by decide) (show calculate_overlap_ratio 0 10 0 10 > 0 by rw [ratio_0_10_0_10]; norm_num)
  rw [s1]
  exact innerScan_stop _ _ _ _ _ _ (by decide)

/-- The merge on the small sorted instance. -/
lemma eval_merge_w : merge_segments wTs wDs = [⟨0, 10, "x", "A"⟩] := by
  show mergeLoop wTs wDs 0 = _
  show (⟨0, 10, "x", (innerScan ⟨0, 10, "x"⟩ wDs 0 0 "UNKNOWN" 0).2⟩ : MergedSegment)
    :: mergeLoop [] wDs (innerScan ⟨0, 10, "x"⟩ wDs 0 0 "UNKNOWN" 0).1 = _
  rw [eval_innerScan_w]
  rfl

/-- Formula for the overlap ratio in the genuinely-overlapping case. -/
lemma ratio_pos_formula (a b c d : Int) (h : max a c < min b d) :
    calculate_overlap_ratio a b c d =
      ((min b d - max a c : Int) : ℚ) / ((b - a : Int) : ℚ) := by
  simp only [calculate_overlap_ratio]
  rw [if_neg (not_le.mpr h)]
  have h1 : a ≤ a ⊔ c := le_max_left a c
  have h2 : b ⊓ d ≤ b := min_le_left b d
  rw [if_neg (by omega : ¬ b - a = 0)]

/-- Every speaker in the loop output is the sentinel or comes from the
diarization input. -/
lemma mergeLoop_speakers (ds : List DiarizeSegment) :
    ∀ (ts : List TranscriptSegment) (c : Nat), ∀ m ∈ mergeLoop ts ds c,
      m.speaker = "UNKNOWN" ∨ ∃ d ∈ ds, m.speaker = d.speaker := by
  intro ts
  induction ts with
  | nil => intro c m hm; exact absurd hm (List.not_mem_nil m)
  | cons t rest ih =>
    intro c m hm
    rcases List.mem_cons.mp hm with h | h
    · subst h
      simpa using innerScan_snd_mem_aux t ds ds.length c c "UNKNOWN" 0 (by omega)
    · exact ih _ m h

lemma eval_merge_z : merge_segments zTs wDs = [⟨7, 7, "z", "UNKNOWN"⟩] := by
  have hz : ¬ calculate_overlap_ratio 7 7 0 10 > 0 := by
    rw [ratio_eq_zero_of_degenerate]
    exact lt_irrefl 0
  have s1 := innerScan_keep ⟨7, 7, "z"⟩ wDs 0 0 "UNKNOWN" 0 (by decide) (by decide)
    (by decide) hz
  have e1 : innerScan ⟨7, 7, "z"⟩ wDs 0 0 "UNKNOWN" 0 = (0, "UNKNOWN") := by
    rw [s1]
    exact innerScan_stop _ _ _ _ _ _ (by decide)
  show (⟨7, 7, "z", (innerScan ⟨7, 7, "z"⟩ wDs 0 0 "UNKNOWN" 0).2⟩ : MergedSegment)
    :: mergeLoop [] wDs (innerScan ⟨7, 7, "z"⟩ wDs 0 0 "UNKNOWN" 0).1 = _
  rw [e1]
  rfl

/-! Claim theorems. -/

/-- C1: for every pair of input lists, `merge_segments` returns exactly one
output element per transcript segment, in transcript order, and the `i`-th
output has `start_ms`, `end_ms` and `text` copied verbatim from the `i`-th
transcript segment; only `speaker` is synthesized. -/
theorem C1_output_shape_and_field_fidelity (ts : List TranscriptSegment)
    (ds : List DiarizeSegment) :
    (merge_segments ts ds).length = ts.length ∧
    ∀ i : Nat, ((merge_segments ts ds)[i]?).map (fun m => (m.start_ms, m.end_ms, m.text)) =
      (ts[i]?).map fun t => (t.start_ms, t.end_ms, t.text) := by
  constructor
  · simp only [merge_segments]
    split
    · next h => rw [List.isEmpty_iff.mp h]; rfl
    · split
      · exact List.length_map ts _
      · exact mergeLoop_length ds ts 0
  · intro i
    simp only [merge_segments]
    split
    · next h => rw [List.isEmpty_iff.mp h]; rfl
    · split
      · rw [List.getElem?_map, Option.map_map]
        rfl
      · obtain ⟨cc, hcc⟩ := mergeLoop_getElem? ds ts i 0
        rw [hcc, Option.map_map]
        rfl

/-- C4: an empty transcript list yields the empty output for any diarization
list, and a non-empty transcript list with an empty diarization list yields
one `"UNKNOWN"`-speaker segment per transcript segment with all other fields
copied verbatim. -/
theorem C4_empty_special_cases (ts : List TranscriptSegment) (ds : List DiarizeSegment)
    (h : ts ≠ []) :
    merge_segments [] ds = [] ∧
    merge_segments ts [] = ts.map fun t =>
      { start_ms := t.start_ms, end_ms := t.end_ms, text := t.text, speaker := "UNKNOWN" } := by
  constructor
  · rfl
  · cases ts with
    | nil => exact absurd rfl h
    | cons t rest => rfl

/-- C4 witness at a concrete non-empty transcript list. -/
theorem C4_empty_special_cases_witness :
    merge_segments [] wDs = [] ∧
    merge_segments wTs [] = wTs.map fun t =>
      { start_ms := t.start_ms, end_ms := t.end_ms, text := t.text, speaker := "UNKNOWN" } :=
  C4_empty_special_cases wTs wDs (by decide)

/-- C5: for non-negative integer inputs, the overlap ratio is `0` when
`max(transcript_start, diarize_start) ≥ min(transcript_end, diarize_end)`,
is otherwise the overlap duration divided by the transcript duration, and
always lies in `[0, 1]`. -/
theorem C5_ratio_cases_and_range (a b c d : Int)
    (_ha : 0 ≤ a) (_hb : 0 ≤ b) (_hc : 0 ≤ c) (_hd : 0 ≤ d) :
    (max a c ≥ min b d → calculate_overlap_ratio a b c d = 0) ∧
    (max a c < min b d → calculate_overlap_ratio a b c d =
      ((min b d - max a c : Int) : ℚ) / ((b - a : Int) : ℚ)) ∧
    0 ≤ calculate_overlap_ratio a b c d ∧ calculate_overlap_ratio a b c d ≤ 1 := by
  refine ⟨?_, ratio_pos_formula a b c d, ratio_nonneg a b c d, ratio_le_one a b c d⟩
  intro h
  simp only [calculate_overlap_ratio]
  rw [if_pos h]

/-- C5 witness at a concrete overlapping pair of intervals. -/
theorem C5_ratio_cases_and_range_witness :
    (max (0 : Int) 2 ≥ min 10 8 → calculate_overlap_ratio 0 10 2 8 = 0) ∧
    (max (0 : Int) 2 < min 10 8 → calculate_overlap_ratio 0 10 2 8 =
      ((min (10 : Int) 8 - max 0 2 : Int) : ℚ) / (((10 : Int) - 0 : Int) : ℚ)) ∧
    0 ≤ calculate_overlap_ratio 0 10 2 8 ∧ calculate_overlap_ratio 0 10 2 8 ≤ 1 :=
  C5_ratio_cases_and_range 0 10 2 8 (by decide) (by decide) (by decide) (by decide)

/-- C7: the instrumented merge, in which a zero-divisor division or an
out-of-range subscript would surface as `none`, always returns `some` of the
plain merge result: the merge core is total and never raises. -/
theorem C7_total_never_raises (ts : List TranscriptSegment) (ds : List DiarizeSegment) :
    merge_segments_checked ts ds = some (merge_segments ts ds) := by
  simp only [merge_segments_checked, merge_segments]
  split
  · rfl
  · split
    · rfl
    · exact mergeLoop_checked_eq ds ts 0

/-- C10: the `transcript_duration == 0` guard in `calculate_overlap_ratio`
is dead code: the function equals the guard-free variant on every input, and
whenever the division branch is reached the divisor is strictly positive. -/
theorem C10_zero_duration_guard_dead (a b c d : Int) :
    calculate_overlap_ratio a b c d = calculate_overlap_ratio_noguard a b c d ∧
    (max a c < min b d → 0 < b - a ∧ calculate_overlap_ratio a b c d =
      ((min b d - max a c : Int) : ℚ) / ((b - a : Int) : ℚ)) := by
  constructor
  · simp only [calculate_overlap_ratio, calculate_overlap_ratio_noguard]
    split
    · rfl
    · next h =>
      push_neg at h
      have h1 : a ≤ a ⊔ c := le_max_left a c
      have h2 : b ⊓ d ≤ b := min_le_left b d
      rw [if_neg (by omega : ¬ b - a = 0)]
  · intro h
    have h1 : a ≤ a ⊔ c := le_max_left a c
    have h2 : b ⊓ d ≤ b := min_le_left b d
    exact ⟨by omega, ratio_pos_formula a b c d h⟩

/-- C10 witness at a concrete overlapping pair of intervals. -/
theorem C10_zero_duration_guard_dead_witness :
    calculate_overlap_ratio 0 10 2 8 = calculate_overlap_ratio_noguard 0 10 2 8 ∧
    0 < (10 : Int) - 0 :=
  ⟨(C10_zero_duration_guard_dead 0 10 2 8).1,
    ((C10_zero_duration_guard_dead 0 10 2 8).2 (by decide)).1⟩

/-- C6: a zero-length transcript interval always has overlap ratio `0`, and
consequently every transcript segment with `start_ms == end_ms` receives
speaker `"UNKNOWN"` in the merge output. -/
theorem C6_zero_duration_never_matches (s dstart dend : Int)
    (ts : List TranscriptSegment) (ds : List DiarizeSegment) :
    calculate_overlap_ratio s s dstart dend = 0 ∧
    ∀ (i : Nat) (t : TranscriptSegment) (m : MergedSegment),
      ts[i]? = some t → (merge_segments ts ds)[i]? = some m →
      t.start_ms = t.end_ms → m.speaker = "UNKNOWN" := by
  refine ⟨ratio_eq_zero_of_degenerate s dstart dend, ?_⟩
  intro i t m hti hmi ht
  simp only [merge_segments] at hmi
  split at hmi
  · next h =>
    rw [List.isEmpty_iff.mp h] at hti
    exact absurd hti (by simp)
  · split at hmi
    · rw [List.getElem?_map, hti] at hmi
      injection hmi with hm
      rw [← hm]
    · obtain ⟨cc, hcc⟩ := mergeLoop_getElem? ds ts i 0
      rw [hcc, hti] at hmi
      injection hmi with hm
      rw [← hm]
      exact innerScan_degenerate t ht ds cc cc

/-- C6 witness: a concrete zero-duration transcript segment inside a
spanning diarization segment still comes out `"UNKNOWN"`. -/
theorem C6_zero_duration_never_matches_witness :
    (⟨7, 7, "z", "UNKNOWN"⟩ : MergedSegment).speaker = "UNKNOWN" :=
  (C6_zero_duration_never_matches 5 0 10 zTs wDs).2 0 ⟨7, 7, "z"⟩ ⟨7, 7, "z", "UNKNOWN"⟩
    rfl (by rw [eval_merge_z]; rfl) rfl

/-- C8: for any inputs, sorted or not, every speaker in the output is the
sentinel `"UNKNOWN"` or the speaker of some input diarization segment. -/
theorem C8_speakers_come_from_input (ts : List TranscriptSegment)
    (ds : List DiarizeSegment) :
    ∀ m ∈ merge_segments ts ds, m.speaker = "UNKNOWN" ∨ ∃ d ∈ ds, m.speaker = d.speaker := by
  intro m hm
  simp only [merge_segments] at hm
  split at hm
  · exact absurd hm (List.not_mem_nil m)
  · split at hm
    · obtain ⟨t, _, hmt⟩ := List.mem_map.mp hm
      rw [← hmt]
      exact Or.inl rfl
    · exact mergeLoop_speakers ds ts 0 m hm

/-- C8 witness at the concrete nested input. -/
theorem C8_speakers_come_from_input_witness :
    (⟨30, 50, "a", "S1"⟩ : MergedSegment).speaker = "UNKNOWN" ∨
      ∃ d ∈ exDs, (⟨30, 50, "a", "S1"⟩ : MergedSegment).speaker = d.speaker :=
  C8_speakers_come_from_input exTs exDs ⟨30, 50, "a", "S1"⟩
    (by rw [eval_merge_ex]; exact List.mem_cons_self _ _)

/-- C9: in the general case the cursor starts at `0`, and one inner scan
either leaves the cursor unchanged or moves it to `j + 1` for some scanned
index `j ≥` the old cursor whose diarization segment ends before the current
transcript segment starts; in particular the cursor never decreases across
the outer loop (whose next iteration receives the returned cursor
unchanged). -/
theorem C9_cursor_monotone_prune_only (ts : List TranscriptSegment)
    (ds : List DiarizeSegment) (h1 : ts ≠ []) (h2 : ds ≠ []) :
    merge_segments ts ds = mergeLoop ts ds 0 ∧
    ∀ (t : TranscriptSegment) (i c : Nat) (b : String) (o : ℚ), c ≤ i →
      c ≤ (innerScan t ds i c b o).1 ∧
      ((innerScan t ds i c b o).1 = c ∨
        ∃ j, ∃ hj : j < ds.length, c ≤ j ∧ (innerScan t ds i c b o).1 = j + 1 ∧
          ds[j].end_ms < t.start_ms) := by
  constructor
  · have e1 : ts.isEmpty = false := by
      cases ts with
      | nil => exact absurd rfl h1
      | cons t rest => rfl
    have e2 : ds.isEmpty = false := by
      cases ds with
      | nil => exact absurd rfl h2
      | cons d rest => rfl
    simp only [merge_segments, e1, e2, Bool.false_eq_true, if_false]
  · intro t i c b o hc
    exact ⟨innerScan_fst_mono t ds i c b o hc, innerScan_fst_spec t ds i c b o hc⟩

/-- C9 witness at the concrete sorted instance, cursor step included. -/
theorem C9_cursor_monotone_prune_only_witness :
    merge_segments wTs wDs = mergeLoop wTs wDs 0 ∧
    0 ≤ (innerScan ⟨0, 10, "x"⟩ wDs 0 0 "UNKNOWN" 0).1 :=
  ⟨(C9_cursor_monotone_prune_only wTs wDs (by decide) (by decide)).1,
    ((C9_cursor_monotone_prune_only wTs wDs (by decide) (by decide)).2
      ⟨0, 10, "x"⟩ 0 0 "UNKNOWN" 0 (le_refl 0)).1⟩

/-- C2 counterexample: with both lists non-empty and sorted ascending by
`start_ms`, the merge does not always assign the speaker of the
lowest-index diarization segment attaining the maximal strictly-positive
overlap.  On `exTs`/`exDs` the second transcript segment gets `"UNKNOWN"`
although the first diarization segment overlaps it with ratio `1`. -/
theorem C2_first_max_claim_counterexample :
    ¬ ∀ (ts : List TranscriptSegment) (ds : List DiarizeSegment),
        ts ≠ [] → ds ≠ [] → transcriptSorted ts → diarizeSortedByStart ds →
        ∀ (i : Nat) (t : TranscriptSegment) (m : MergedSegment),
          ts[i]? = some t → (merge_segments ts ds)[i]? = some m →
          ((∀ d ∈ ds, calculate_overlap_ratio t.start_ms t.end_ms d.start_ms d.end_ms = 0) →
            m.speaker = "UNKNOWN") ∧
          (∀ j, (hj : j < ds.length) →
            0 < calculate_overlap_ratio t.start_ms t.end_ms ds[j].start_ms ds[j].end_ms →
            (∀ k, (hk : k < ds.length) →
              calculate_overlap_ratio t.start_ms t.end_ms ds[k].start_ms ds[k].end_ms ≤
                calculate_overlap_ratio t.start_ms t.end_ms ds[j].start_ms ds[j].end_ms) →
            (∀ k, (hk : k < ds.length) → k < j →
              calculate_overlap_ratio t.start_ms t.end_ms ds[k].start_ms ds[k].end_ms <
                calculate_overlap_ratio t.start_ms t.end_ms ds[j].start_ms ds[j].end_ms) →
            m.speaker = ds[j].speaker) := by
  intro h
  have hlen : exDs.length = 2 := rfl
  have hmax : ∀ k, (hk : k < exDs.length) →
      calculate_overlap_ratio 60 90 exDs[k].start_ms exDs[k].end_ms ≤
        calculate_overlap_ratio 60 90 exDs[0].start_ms exDs[0].end_ms := by
    intro k hk
    match k, hk with
    | 0, _ => exact le_refl _
    | 1, _ =>
      show calculate_overlap_ratio 60 90 10 20 ≤ calculate_overlap_ratio 60 90 0 100
      rw [ratio_60_90_10_20, ratio_60_90_0_100]
      norm_num
  have hc := (h exTs exDs (by decide) (by decide)
      (by simp [transcriptSorted, exTs])
      (by simp [diarizeSortedByStart, exDs])
      1 ⟨60, 90, "b"⟩ ⟨60, 90, "b", "UNKNOWN"⟩ rfl (by rw [eval_merge_ex]; rfl)).2
    0 (by decide)
    (show (0 : ℚ) < calculate_overlap_ratio 60 90 0 100 by rw [ratio_60_90_0_100]; norm_num)
    hmax
    (by intro k hk h0; omega)
  exact absurd hc (by decide)

/-- C2 amended: the lowest-index-maximum speaker assignment (with the
all-zero case yielding `"UNKNOWN"`) holds once the diarization list is
additionally required to be non-decreasing in `end_ms` (as in the
counterexample, a diarization segment nested inside an earlier longer one
defeats the cursor pruning). -/
theorem C2_first_max_amended (ts : List TranscriptSegment) (ds : List DiarizeSegment)
    (_hne1 : ts ≠ []) (_hne2 : ds ≠ []) (h1 : transcriptSorted ts)
    (h2 : diarizeSortedByStart ds) (h3 : diarizeSortedByEnd ds) :
    ∀ (i : Nat) (t : TranscriptSegment) (m : MergedSegment),
      ts[i]? = some t → (merge_segments ts ds)[i]? = some m →
      ((∀ d ∈ ds, calculate_overlap_ratio t.start_ms t.end_ms d.start_ms d.end_ms = 0) →
        m.speaker = "UNKNOWN") ∧
      (∀ j, (hj : j < ds.length) →
        0 < calculate_overlap_ratio t.start_ms t.end_ms ds[j].start_ms ds[j].end_ms →
        (∀ k, (hk : k < ds.length) →
          calculate_overlap_ratio t.start_ms t.end_ms ds[k].start_ms ds[k].end_ms ≤
            calculate_overlap_ratio t.start_ms t.end_ms ds[j].start_ms ds[j].end_ms) →
        (∀ k, (hk : k < ds.length) → k < j →
          calculate_overlap_ratio t.start_ms t.end_ms ds[k].start_ms ds[k].end_ms <
            calculate_overlap_ratio t.start_ms t.end_ms ds[j].start_ms ds[j].end_ms) →
        m.speaker = ds[j].speaker) := by
  intro i t m hti hmi
  rw [merge_eq_naive_sorted ts ds h1 h2 h3, naive_merge_spec, List.getElem?_map, hti] at hmi
  injection hmi with hm
  rw [← hm]
  exact naive_best_spec_char t ds

/-- C2 witness at the concrete sorted instance `wTs`/`wDs`. -/
theorem C2_first_max_amended_witness :
    (⟨0, 10, "x", "A"⟩ : MergedSegment).speaker = wDs[0].speaker :=
  ((C2_first_max_amended wTs wDs (by decide) (by decide)
      (by simp [transcriptSorted, wTs]) (by simp [diarizeSortedByStart, wDs])
      (by simp [diarizeSortedByEnd, wDs]))
    0 ⟨0, 10, "x"⟩ ⟨0, 10, "x", "A"⟩ rfl (by rw [eval_merge_w]; rfl)).2
    0 (by decide)
    (show (0 : ℚ) < calculate_overlap_ratio 0 10 0 10 by rw [ratio_0_10_0_10]; norm_num)
    (by
      intro k hk
      have hk0 : k = 0 := by
        have hl : wDs.length = 1 := rfl
        omega
      subst hk0
      exact le_refl _)
    (by intro k hk h0; omega)

/-- C3 counterexample: sortedness of both inputs by `start_ms` does not make
the cursor-based merge agree with the naive full-scan merge: on `exTs`/`exDs`
the prune at diarization index 1 (while scanning the first transcript
segment) moves the cursor past diarization index 0, which the second
transcript segment still overlaps. -/
theorem C3_refinement_counterexample :
    ¬ ∀ (ts : List TranscriptSegment) (ds : List DiarizeSegment),
        transcriptSorted ts → diarizeSortedByStart ds →
        merge_segments ts ds = naive_merge_spec ts ds := by
  intro h
  have he := h exTs exDs
    (by simp [transcriptSorted, exTs])
    (by simp [diarizeSortedByStart, exDs])
  rw [eval_merge_ex, eval_naive_ex] at he
  exact absurd he (by decide)

/-- C3 amended: the cursor-based merge coincides with the naive full-scan
merge when the transcript list is sorted by `start_ms` and the diarization
list is sorted by `start_ms` and additionally non-decreasing in `end_ms`. -/
theorem C3_refinement_amended (ts : List TranscriptSegment) (ds : List DiarizeSegment)
    (h1 : transcriptSorted ts) (h2 : diarizeSortedByStart ds)
    (h3 : diarizeSortedByEnd ds) :
    merge_segments ts ds = naive_merge_spec ts ds :=
  merge_eq_naive_sorted ts ds h1 h2 h3

/-- C3 witness at the concrete sorted instance `wTs`/`wDs`. -/
theorem C3_refinement_amended_witness :
    merge_segments wTs wDs = naive_merge_spec wTs wDs :=
  C3_refinement_amended wTs wDs
    (by simp [transcriptSorted, wTs]) (by simp [diarizeSortedByStart, wDs])
    (by simp [diarizeSortedByEnd, wDs])

end Metalscribe
